import Mathlib

/-!
# Verification of the halotools pair-counter engine contract and subhalo mock factory

The pair-counter engine family (`npairs_3d_engine`, `npairs_s_mu_engine`,
`npairs_per_object_3d_engine`, `npairs_jackknife_3d_engine`, ...) is declared in
`halotools/mock_observables/pair_counters/cpairs/__init__.py`; the engine bodies
themselves are compiled extension sources that are not part of this snapshot, so
the engines below are modelled from the specification's description of the
engine contract.  Real-valued separations are represented by their squares so
that all definitions stay inside `ℚ` and remain executable; a pair is within a
threshold `r` exactly when its squared separation is `≤ r^2`.

The subhalo mock factory (`SubhaloMockFactory`) definitions further below are
translated directly from
`halotools/empirical_models/factories/subhalo_mock_factory.py`.
-/

namespace Halotools

/-- A 3D point with rational coordinates (the engines consume coordinate
triples `(x, y, z)`). -/
structure Point where
  x : ℚ
  y : ℚ
  z : ℚ
  deriving DecidableEq, Repr

/-- Modelled from the spec: an axis-aligned box domain with extents
`(Lx, Ly, Lz)`, flagged periodic or non-periodic per axis. -/
structure BoxSpec where
  Lx : ℚ
  Ly : ℚ
  Lz : ℚ
  px : Bool
  py : Bool
  pz : Bool
  deriving DecidableEq, Repr

/-- Modelled from the spec: wrap a coordinate into `[0, L)` via modulo
(`x - L * ⌊x / L⌋`); applied to every coordinate on a periodic axis before
traversal. -/
def wrapCoord (L x : ℚ) : ℚ := x - L * ((Int.floor (x / L) : ℤ) : ℚ)

/-- Modelled from the spec: on a periodic axis the engine uses the
minimum-image displacement, "displacement d, or d − L, or d + L, whichever has
smallest magnitude"; on a non-periodic axis the raw displacement is used. -/
def minImageDisp (periodic : Bool) (L d : ℚ) : ℚ :=
  if periodic then
    let c := if |d - L| < |d| then d - L else d
    if |d + L| < |c| then d + L else c
  else d

/-- Modelled from the spec: points outside the domain of a periodic axis are
first wrapped via modulo; non-periodic coordinates are left untouched. -/
def normalizePoint (box : BoxSpec) (p : Point) : Point :=
  { x := if box.px then wrapCoord box.Lx p.x else p.x
    y := if box.py then wrapCoord box.Ly p.y else p.y
    z := if box.pz then wrapCoord box.Lz p.z else p.z }

/-- Square of a rational (written with `*` so that concrete instances reduce
in the kernel). -/
def ratSq (a : ℚ) : ℚ := a * a

/-- Modelled from the spec: squared 3D Euclidean separation, each axis using
the minimum-image displacement when that axis is periodic. -/
def distSq (box : BoxSpec) (p q : Point) : ℚ :=
  ratSq (minImageDisp box.px box.Lx (p.x - q.x)) +
  ratSq (minImageDisp box.py box.Ly (p.y - q.y)) +
  ratSq (minImageDisp box.pz box.Lz (p.z - q.z))

/-- Default point used by positional lookups (indices are always in range). -/
def origin : Point := ⟨0, 0, 0⟩

/-- All ordered index pairs `(i, j)` with `i < n`, `j < m`: the double loop of
the traversal skeleton, home index `i` over `data1`, neighbor index `j` over
`data2`. -/
def allPairs (n m : ℕ) : List (ℕ × ℕ) :=
  (List.range n).flatMap fun i => (List.range m).map fun j => (i, j)

/-- Bool test `distSq box p q ≤ rsq` (pair within the threshold whose square
is `rsq`). -/
def withinBool (box : BoxSpec) (rsq : ℚ) (p q : Point) : Bool :=
  decide (distSq box p q ≤ rsq)

/-- Generic cross-correlation pair count over index predicate `pred`. -/
def crossCountIdx (pred : ℕ → ℕ → Bool) (n m : ℕ) : ℕ :=
  ((allPairs n m).filter fun ij => pred ij.1 ij.2).length

/-- Modelled from the spec: in the auto-correlation case the engine skips the
pair exactly when the neighbor's original index `j` is `≤` the home index `i`;
this list holds the index pairs the engine actually accumulates. -/
def autoPairsIdx (pred : ℕ → ℕ → Bool) (n : ℕ) : List (ℕ × ℕ) :=
  (allPairs n n).filter fun ij => decide (ij.1 < ij.2) && pred ij.1 ij.2

/-- Generic auto-correlation pair count (length of `autoPairsIdx`). -/
def autoCountIdx (pred : ℕ → ℕ → Bool) (n : ℕ) : ℕ :=
  (autoPairsIdx pred n).length

/-- The index pairs accumulated by the 3D auto-correlation engine on point list
`l` at squared threshold `rsq`. -/
def countedAutoPairs (box : BoxSpec) (rsq : ℚ) (l : List Point) : List (ℕ × ℕ) :=
  autoPairsIdx (fun i j => withinBool box rsq (l.getD i origin) (l.getD j origin)) l.length

/-- Number of distinct (unordered, non-self) pairs of `l` within squared
threshold `rsq`. -/
def autoCount (box : BoxSpec) (rsq : ℚ) (l : List Point) : ℕ :=
  (countedAutoPairs box rsq l).length

/-- Number of cross pairs `(p, q) ∈ l1 × l2` within squared threshold `rsq`. -/
def crossCount (box : BoxSpec) (rsq : ℚ) (l1 l2 : List Point) : ℕ :=
  crossCountIdx
    (fun i j => withinBool box rsq (l1.getD i origin) (l2.getD j origin))
    l1.length l2.length

/-- Modelled from the spec: thresholds must form an ordered, strictly
increasing sequence. -/
def strictlyAscending : List ℚ → Bool
  | a :: b :: t => decide (a < b) && strictlyAscending (b :: t)
  | _ => true

/-- Modelled from the spec: negative radii are a configuration error. -/
def allNonneg (l : List ℚ) : Bool := l.all fun r => decide (0 ≤ r)

/-- A point lies inside the domain on every non-periodic axis. -/
def inDomain (box : BoxSpec) (p : Point) : Bool :=
  (box.px || (decide (0 ≤ p.x) && decide (p.x < box.Lx))) &&
  (box.py || (decide (0 ≤ p.y) && decide (p.y < box.Ly))) &&
  (box.pz || (decide (0 ≤ p.z) && decide (p.z < box.Lz)))

def errRbinsMonotonic : String :=
  "rbins: the threshold list is required to be strictly increasing"

def errRbinsNegative : String :=
  "rbins: thresholds are required to be nonnegative"

def errCellSize : String :=
  "approx_cell_size: the cell size is required to be positive"

def errDomain : String :=
  "data: a point lies outside the bounds of a non-periodic axis"

def errJtags1 : String :=
  "jtags1: the label array length differs from the length of data1"

def errJtags2 : String :=
  "jtags2: the label array length differs from the length of data2"

/-- Configuration block of a cumulative pair-counting engine: two point sets,
the auto-correlation flag (`data1 is data2`), the box, the grid cell size and
the ascending threshold list. -/
structure NpairsConfig where
  data1 : List Point
  data2 : List Point
  autocorr : Bool
  box : BoxSpec
  cell_size : ℚ
  rbins : List ℚ
  deriving Repr

/-- Modelled from the spec: configuration validation performed before any
traversal begins — non-monotonic thresholds, negative radii, non-positive cell
size and out-of-domain points on non-periodic axes are rejected with an error
identifying the failing argument. -/
def validateNpairs (cfg : NpairsConfig) : Option String :=
  if strictlyAscending cfg.rbins = false then some errRbinsMonotonic
  else if allNonneg cfg.rbins = false then some errRbinsNegative
  else if cfg.cell_size ≤ 0 then some errCellSize
  else if (cfg.data1 ++ if cfg.autocorr then [] else cfg.data2).all (inDomain cfg.box) = false
    then some errDomain
  else none

/-- Modelled from the spec: the global cumulative histogram of the 3D engine —
for each threshold `r_k` of the ascending list, the number of pairs with
separation `≤ r_k`; in the auto-correlation case a pair is counted once with
the `j ≤ i` skip rule, otherwise every `data1 × data2` pair is tested. -/
def npairsHist (box : BoxSpec) (autocorr : Bool) (rbins : List ℚ)
    (l1 l2 : List Point) : List ℕ :=
  let d1 := l1.map (normalizePoint box)
  let d2 := if autocorr then d1 else l2.map (normalizePoint box)
  rbins.map fun r =>
    if autocorr then autoCount box (ratSq r) d1 else crossCount box (ratSq r) d1 d2

/-- Modelled from the spec: `npairs_3d_engine` — validate the configuration,
then return the global cumulative histogram of pair counts; no partial
accumulator is ever produced on failure. -/
def npairs_3d_engine (cfg : NpairsConfig) : Except String (List ℕ) :=
  match validateNpairs cfg with
  | some e => .error e
  | none => .ok (npairsHist cfg.box cfg.autocorr cfg.rbins cfg.data1 cfg.data2)

/-- Modelled from the spec: the s-mu distance metric returns two scalar keys
per pair, the total separation `s` and `mu = |parallel separation| / s`,
"0 when s == 0, defined as exactly 0 in that degenerate case to avoid division
by zero". Separations are carried as squares (`s^2` and `mu^2`), which
determines `s ≥ 0` and `mu ≥ 0` uniquely. -/
def smuKey (box : BoxSpec) (p q : Point) : ℚ × ℚ :=
  let dpar := minImageDisp box.pz box.Lz (p.z - q.z)
  let dperpSq := ratSq (minImageDisp box.px box.Lx (p.x - q.x)) +
    ratSq (minImageDisp box.py box.Ly (p.y - q.y))
  let sSq := dperpSq + ratSq dpar
  (sSq, if sSq = 0 then 0 else ratSq dpar / sSq)

/-- Modelled from the spec: the cumulative histogram of the s-mu engine over
the ascending `s` threshold list (the relevant separation of the variant is
the total separation `s`). -/
def smuHist (box : BoxSpec) (autocorr : Bool) (rbins : List ℚ)
    (l1 l2 : List Point) : List ℕ :=
  let d1 := l1.map (normalizePoint box)
  let d2 := if autocorr then d1 else l2.map (normalizePoint box)
  rbins.map fun r =>
    if autocorr then
      autoCountIdx
        (fun i j => decide ((smuKey box (d1.getD i origin) (d1.getD j origin)).1 ≤ ratSq r))
        d1.length
    else
      crossCountIdx
        (fun i j => decide ((smuKey box (d1.getD i origin) (d2.getD j origin)).1 ≤ ratSq r))
        d1.length d2.length

/-- Modelled from the spec: `npairs_s_mu_engine` — validation, then the global
cumulative histogram keyed by the s-mu metric. -/
def npairs_s_mu_engine (cfg : NpairsConfig) : Except String (List ℕ) :=
  match validateNpairs cfg with
  | some e => .error e
  | none => .ok (smuHist cfg.box cfg.autocorr cfg.rbins cfg.data1 cfg.data2)

/-- Modelled from the spec: the per-object accumulator — one row of cumulative
threshold counts per home point, in `data1`'s original (pre-sort) order; every
neighbor within the threshold is counted (this variant does not require
unordered unique pairs, so no skip rule applies). -/
def perObjectRow (box : BoxSpec) (rbins : List ℚ) (p : Point) (l2 : List Point) : List ℕ :=
  rbins.map fun r => l2.countP (withinBool box (ratSq r) p)

/-- Modelled from the spec: the per-object histogram of `npairs_per_object_3d`,
indexed by the home point's position in `data1`. -/
def perObjectHist (box : BoxSpec) (rbins : List ℚ) (l1 l2 : List Point) : List (List ℕ) :=
  (l1.map (normalizePoint box)).map fun p =>
    perObjectRow box rbins p (l2.map (normalizePoint box))

/-- Modelled from the spec: `npairs_per_object_3d_engine` — validation, then
the per-home-point cumulative counts. -/
def npairs_per_object_3d_engine (cfg : NpairsConfig) : Except String (List (List ℕ)) :=
  match validateNpairs cfg with
  | some e => .error e
  | none =>
    .ok (perObjectHist cfg.box cfg.rbins cfg.data1
      (if cfg.autocorr then cfg.data1 else cfg.data2))

/-- Configuration of the jackknife-weighted engine: the point sets carry
jackknife-region labels and a subsample count. -/
structure JkConfig where
  data1 : List Point
  data2 : List Point
  jtags1 : List ℕ
  jtags2 : List ℕ
  nsub : ℕ
  autocorr : Bool
  box : BoxSpec
  cell_size : ℚ
  rbins : List ℚ
  deriving Repr

/-- Modelled from the spec: jackknife validation also rejects mismatched
lengths between the point arrays and the auxiliary label arrays. -/
def validateJk (cfg : JkConfig) : Option String :=
  if strictlyAscending cfg.rbins = false then some errRbinsMonotonic
  else if allNonneg cfg.rbins = false then some errRbinsNegative
  else if cfg.cell_size ≤ 0 then some errCellSize
  else if cfg.jtags1.length ≠ cfg.data1.length then some errJtags1
  else if cfg.jtags2.length ≠ cfg.data2.length then some errJtags2
  else if (cfg.data1 ++ if cfg.autocorr then [] else cfg.data2).all (inDomain cfg.box) = false
    then some errDomain
  else none

/-- Modelled from the spec: a pair with labels `(a, b)` contributes to the
full-sample bin (`s = 0`) always, and to jackknife-subsample bin `s` unless
`a == s or b == s`. -/
def jkPairOk (jt1 jt2 : List ℕ) (s i j : ℕ) : Bool :=
  decide (s = 0) || (decide (jt1.getD i 0 ≠ s) && decide (jt2.getD j 0 ≠ s))

/-- Modelled from the spec: the jackknife-weighted histogram — row `0` is the
full sample, row `s` (for `1 ≤ s ≤ N_sub`) the subsample excluding region
`s`. -/
def jkHist (box : BoxSpec) (autocorr : Bool) (rbins : List ℚ)
    (l1 l2 : List Point) (jt1 jt2 : List ℕ) (nsub : ℕ) : List (List ℕ) :=
  let d1 := l1.map (normalizePoint box)
  let d2 := if autocorr then d1 else l2.map (normalizePoint box)
  (List.range (nsub + 1)).map fun s => rbins.map fun r =>
    if autocorr then
      autoCountIdx
        (fun i j => withinBool box (ratSq r) (d1.getD i origin) (d1.getD j origin) &&
          jkPairOk jt1 jt1 s i j)
        d1.length
    else
      crossCountIdx
        (fun i j => withinBool box (ratSq r) (d1.getD i origin) (d2.getD j origin) &&
          jkPairOk jt1 jt2 s i j)
        d1.length d2.length

/-- Modelled from the spec: `npairs_jackknife_3d_engine` — validation including
the label arrays, then the jackknife-weighted histogram. -/
def npairs_jackknife_3d_engine (cfg : JkConfig) : Except String (List (List ℕ)) :=
  match validateJk cfg with
  | some e => .error e
  | none =>
    .ok (jkHist cfg.box cfg.autocorr cfg.rbins cfg.data1 cfg.data2
      cfg.jtags1 cfg.jtags2 cfg.nsub)

/-! ## Subhalo mock factory (`subhalo_mock_factory.py`) -/

/-- A table column; values are abstracted to integers (only column identity
and length matter to the claims under verification). -/
def Column : Type := List ℤ

instance : DecidableEq Column := by
  unfold Column
  exact inferInstance

/-- An astropy-style table: an ordered association of column names to
columns. -/
def Table : Type := List (String × Column)

instance : DecidableEq Table := by
  unfold Table
  exact inferInstance

/-- Column lookup (`table[key]`, `none` when the lookup would raise
`KeyError`). -/
def Table.get (t : Table) (k : String) : Option Column :=
  match t with
  | [] => none
  | (k', c) :: rest => if k' = k then some c else Table.get rest k

/-- Column assignment `table[key] = col`: replaces the column when the key
exists, otherwise appends a new column. -/
def Table.set (t : Table) (k : String) (c : Column) : Table :=
  match t with
  | [] => [(k, c)]
  | (k', c') :: rest => if k' = k then (k, c) :: rest else (k', c') :: Table.set rest k c

/-- `len(table)`: the number of rows, i.e. the common length of the columns
(0 for a table with no columns). -/
def Table.numRows (t : Table) : ℕ :=
  match t with
  | [] => 0
  | (_, c) :: _ => c.length

/-- `unavailable_haloprop_msg % key` from `subhalo_mock_factory.py`. -/
def unavailable_haloprop_msg (key : String) : String :=
  "Your model requires that the ``" ++ key ++ "`` key appear in the halo catalog,\n" ++
  "but this column is not available in the catalog you attempted to populate.\n"

/-- A model, as seen by `SubhaloMockFactory`: the optional
`new_haloprop_func_dict` (absence models the caught `AttributeError`), and the
`model_dictionary` of component models, each with an optional `gal_type_func`
(`none` models the caught `AttributeError`); a `gal_type_func` returning
`none` models a callable that raises when invoked. -/
structure FactoryModel where
  new_haloprop_func_dict : Option (List (String × (Table → Column)))
  model_dictionary : List (String × Option (Table → Option Column))

/-- Step of `preprocess_halo_catalog` appending `halo_hostid` and
`halo_mvir_host_halo` to `additional_haloprops` when present in the catalog
and not already listed. -/
def autoHostProps (addprops : List String) (halo_table : Table) : List String :=
  let a1 := if "halo_hostid" ∉ addprops ∧ (Table.get halo_table "halo_hostid").isSome
    then addprops ++ ["halo_hostid"] else addprops
  if "halo_mvir_host_halo" ∉ a1 ∧ (Table.get halo_table "halo_mvir_host_halo").isSome
    then a1 ++ ["halo_mvir_host_halo"] else a1

/-- Step of `preprocess_halo_catalog` applying `new_haloprop_func_dict`: each
entry adds a new column to the halo table and appends its key to
`additional_haloprops`. -/
def applyNewHaloprops (d : List (String × (Table → Column)))
    (halo_table : Table) (addprops : List String) : Table × List String :=
  match d with
  | [] => (halo_table, addprops)
  | (k, f) :: rest => applyNewHaloprops rest (Table.set halo_table k (f halo_table)) (addprops ++ [k])

/-- The final loop of `preprocess_halo_catalog`: copy each column named in
`additional_haloprops` out of the (augmented) halo table, raising
`HalotoolsError` with `unavailable_haloprop_msg % key` at the first key whose
lookup raises `KeyError`. -/
def copyHaloprops (keys : List String) (halo_table : Table) (acc : Table) :
    Except String Table :=
  match keys with
  | [] => .ok acc
  | k :: rest =>
    match Table.get halo_table k with
    | some c => copyHaloprops rest halo_table (Table.set acc k c)
    | none => .error (unavailable_haloprop_msg k)

/-- The halo table and `additional_haloprops` as they stand right before the
final column-copy loop of `preprocess_halo_catalog`: host-halo keys appended,
`new_haloprop_func_dict` columns created. -/
def augmentedState (model : FactoryModel) (addprops : List String)
    (halo_table : Table) : Table × List String :=
  let a1 := autoHostProps addprops halo_table
  match model.new_haloprop_func_dict with
  | none => (halo_table, a1)
  | some d => applyNewHaloprops d halo_table a1

/-- `SubhaloMockFactory.preprocess_halo_catalog`: augment
`additional_haloprops` with the host-halo bookkeeping keys, create the
`new_haloprop_func_dict` columns, then build `self.halo_table` from the listed
keys, failing with `HalotoolsError` at the first unavailable key.  Returns the
built table together with the final `additional_haloprops`. -/
def preprocess_halo_catalog (model : FactoryModel) (addprops : List String)
    (halo_table : Table) : Except String (Table × List String) :=
  match copyHaloprops (augmentedState model addprops halo_table).2
      (augmentedState model addprops halo_table).1 [] with
  | .ok t => .ok (t, (augmentedState model addprops halo_table).2)
  | .error e => .error e

/-- `l.find?`-style first key of `keys` that is not a column of `t`. -/
def firstMissingKey (keys : List String) (t : Table) : Option String :=
  keys.find? fun k => (Table.get t k).isNone

/-- The phase-space keys inherited by the galaxy table. -/
def phase_space_keys : List String := ["x", "y", "z", "vx", "vy", "vz"]

/-- Error message for a `gal_type_func` that raises (`HalotoolsError` branch of
`precompute_galprops`; the real message also names the component class). -/
def galTypeErrMsg : String :=
  "The `gal_type_func` attribute raises an unexpected exception when passed a halo table"

/-- The `gal_type_func` loop of `precompute_galprops`: components without the
attribute are skipped, a successful call adds the `<feature>_gal_type` column
and records it as precomputed, and a raising call surfaces
`HalotoolsError`. -/
def galTypeLoop (md : List (String × Option (Table → Option Column)))
    (gt : Table) (plist : List String) : Except String (Table × List String) :=
  match md with
  | [] => .ok (gt, plist)
  | (_, none) :: rest => galTypeLoop rest gt plist
  | (feature, some f) :: rest =>
    match f gt with
    | some col =>
      galTypeLoop rest (Table.set gt (feature ++ "_gal_type") col)
        (plist ++ [feature ++ "_gal_type"])
    | none => .error galTypeErrMsg

/-- The phase-space loop of `precompute_galprops`: each of `x, y, z, vx, vy,
vz` is copied from the `hostPfx`-prefixed column (`model_defaults.
host_haloprop_prefix`, a constant not part of this snapshot, is abstracted as
the parameter `hostPfx`); a missing source column raises `KeyError`. -/
def phaseSpaceLoop (hostPfx : String) (keys : List String) (gt : Table)
    (plist : List String) : Except String (Table × List String) :=
  match keys with
  | [] => .ok (gt, plist)
  | k :: rest =>
    match Table.get gt (hostPfx ++ k) with
    | some col => phaseSpaceLoop hostPfx rest (Table.set gt k col) (plist ++ [k])
    | none => .error ("KeyError: " ++ hostPfx ++ k)

/-- The `galid` column: `np.arange(len(galaxy_table))`. -/
def galidColumn (n : ℕ) : Column := (List.range n).map Int.ofNat

/-- `SubhaloMockFactory.precompute_galprops`, starting from an empty
`galaxy_table` (the fresh table created by the `MockFactory` base): inherit
every `additional_haloprops` column of `self.halo_table`, copy the phase-space
coordinates from their host-prefixed columns, set `galid = np.arange(Ngals)`,
then run the `gal_type_func` loop; returns the galaxy table and
`_precomputed_galprop_list`. -/
def precompute_galprops (model : FactoryModel) (hostPfx : String)
    (addprops : List String) (halo_table : Table) :
    Except String (Table × List String) :=
  match phaseSpaceLoop hostPfx phase_space_keys
      (addprops.foldl (fun t k => Table.set t k ((Table.get halo_table k).getD [])) [])
      addprops with
  | .error e => .error e
  | .ok (gt1, pl1) =>
    galTypeLoop model.model_dictionary
      (Table.set gt1 "galid" (galidColumn (Table.numRows gt1))) (pl1 ++ ["galid"])

/-- `SubhaloMockFactory._allocate_memory`: for every key of
`self.model._galprop_dtypes_to_allocate.names` that is not in
`_precomputed_galprop_list`, allocate a fresh length-`Ngals` column
(`np.empty`, modelled as a zero column); all other columns are untouched. -/
def allocate_memory (gt : Table) (plist : List String) (dtypeNames : List String) : Table :=
  let n := Table.numRows gt
  (dtypeNames.filter fun k => decide (k ∉ plist)).foldl
    (fun t k => Table.set t k (List.replicate n 0)) gt

/-! ## Helper lemmas -/

theorem mem_allPairs {n m i j : ℕ} : (i, j) ∈ allPairs n m ↔ i < n ∧ j < m := by
  simp [allPairs]

theorem nodup_allPairs (n m : ℕ) : (allPairs n m).Nodup := by
  unfold allPairs
  rw [List.nodup_flatMap]
  constructor
  · intro i _
    exact (List.nodup_range m).map fun a b h => by simpa using h
  · refine (List.nodup_range n).imp ?_
    intro i i' hne a ha ha'
    simp only [List.mem_map, List.mem_range] at ha ha'
    obtain ⟨j, -, rfl⟩ := ha
    obtain ⟨j', -, hj⟩ := ha'
    exact hne (congrArg Prod.fst hj).symm

theorem countP_flatMap {α β : Type} (l : List α) (f : α → List β) (p : β → Bool) :
    ((l.flatMap f).countP p) = (l.map fun a => (f a).countP p).sum := by
  induction l with
  | nil => rfl
  | cons x xs ih => simp [List.countP_append, ih]

theorem countP_range_getD {α : Type} (l : List α) (d : α) (p : α → Bool) :
    (List.range l.length).countP (fun i => p (l.getD i d)) = l.countP p := by
  induction l with
  | nil => rfl
  | cons x xs ih =>
    rw [List.length_cons, List.range_succ_eq_map, List.countP_cons, List.countP_map]
    simp only [List.getD_cons_zero, List.getD_cons_succ, Function.comp_def, ih,
      List.countP_cons]

theorem map_range_getD {α β : Type} (l : List α) (d : α) (g : α → β) :
    (List.range l.length).map (fun i => g (l.getD i d)) = l.map g := by
  induction l with
  | nil => rfl
  | cons x xs ih =>
    rw [List.length_cons, List.range_succ_eq_map, List.map_cons, List.map_map]
    simp only [List.getD_cons_zero, List.getD_cons_succ, Function.comp_def, ih]
    rfl

theorem crossCountIdx_eq_sum (pred : ℕ → ℕ → Bool) (n m : ℕ) :
    crossCountIdx pred n m =
      ((List.range n).map fun i => (List.range m).countP (pred i)).sum := by
  unfold crossCountIdx allPairs
  rw [← List.countP_eq_length_filter, countP_flatMap]
  congr 1
  refine List.map_congr_left fun i _ => ?_
  rw [List.countP_map]
  rfl

theorem crossCount_eq_sum (box : BoxSpec) (rsq : ℚ) (l1 l2 : List Point) :
    crossCount box rsq l1 l2 =
      (l1.map fun p => l2.countP (withinBool box rsq p)).sum := by
  rw [crossCount, crossCountIdx_eq_sum]
  have inner : ∀ i, (List.range l2.length).countP
      (fun j => withinBool box rsq (l1.getD i origin) (l2.getD j origin)) =
      l2.countP (withinBool box rsq (l1.getD i origin)) := fun i =>
    countP_range_getD l2 origin _
  calc ((List.range l1.length).map fun i => (List.range l2.length).countP
          fun j => withinBool box rsq (l1.getD i origin) (l2.getD j origin)).sum
      = ((List.range l1.length).map fun i =>
          l2.countP (withinBool box rsq (l1.getD i origin))).sum := by
        congr 1
        exact List.map_congr_left fun i _ => inner i
    _ = (l1.map fun p => l2.countP (withinBool box rsq p)).sum :=
        congrArg List.sum
          (map_range_getD l1 origin fun p => l2.countP (withinBool box rsq p))

theorem autoCountIdx_eq_sum (pred : ℕ → ℕ → Bool) (n : ℕ) :
    autoCountIdx pred n = ((List.range n).map fun i =>
      (List.range n).countP fun j => decide (i < j) && pred i j).sum := by
  unfold autoCountIdx autoPairsIdx allPairs
  rw [← List.countP_eq_length_filter, countP_flatMap]
  congr 1
  refine List.map_congr_left fun i _ => ?_
  rw [List.countP_map]
  rfl

theorem autoCountIdx_succ (pred : ℕ → ℕ → Bool) (n : ℕ) :
    autoCountIdx pred (n + 1) =
      (List.range n).countP (fun j => pred 0 (j + 1)) +
        autoCountIdx (fun i j => pred (i + 1) (j + 1)) n := by
  rw [autoCountIdx_eq_sum, autoCountIdx_eq_sum]
  rw [List.range_succ_eq_map, List.map_cons, List.sum_cons, List.map_map]
  congr 1
  · rw [List.countP_cons, List.countP_map]
    have h0 : (decide ((0:ℕ) < 0) && pred 0 0) = false := by simp
    rw [h0]
    simp only [Bool.false_eq_true, if_false, Nat.add_zero]
    refine List.countP_congr fun j _ => ?_
    simp [Nat.succ_pos]
  · congr 1
    refine List.map_congr_left fun i _ => ?_
    simp only [Function.comp_def]
    rw [List.countP_cons, List.countP_map]
    have h0 : (decide (i + 1 < 0) && pred (i + 1) 0) = false := by simp
    rw [h0]
    simp only [Bool.false_eq_true, if_false, Nat.add_zero]
    refine List.countP_congr fun j _ => ?_
    simp [Nat.succ_lt_succ_iff]

theorem autoCount_cons (box : BoxSpec) (rsq : ℚ) (x : Point) (xs : List Point) :
    autoCount box rsq (x :: xs) =
      xs.countP (withinBool box rsq x) + autoCount box rsq xs := by
  show autoCountIdx _ (xs.length + 1) = _
  rw [autoCountIdx_succ]
  simp only [List.getD_cons_zero, List.getD_cons_succ]
  rw [countP_range_getD xs origin (withinBool box rsq x)]
  rfl

theorem mulSelf_lt_of_abs_lt {a b : ℚ} (h : |a| < |b|) : a * a < b * b := by
  have := mul_self_lt_mul_self (abs_nonneg a) h
  rwa [abs_mul_abs_self, abs_mul_abs_self] at this

theorem mulSelf_le_of_abs_le {a b : ℚ} (h : |a| ≤ |b|) : a * a ≤ b * b := by
  have := mul_self_le_mul_self (abs_nonneg a) h
  rwa [abs_mul_abs_self, abs_mul_abs_self] at this

/-- On a periodic axis, the square of the minimum-image displacement is the
least of the squares of the three candidates `d`, `d − L`, `d + L`. -/
theorem minImageSq_eq (L d : ℚ) :
    ratSq (minImageDisp true L d) =
      min (min (ratSq d) (ratSq (d - L))) (ratSq (d + L)) := by
  unfold minImageDisp ratSq
  simp only [if_true]
  split_ifs with h1 h2 h2
  · have hA := mulSelf_lt_of_abs_lt h1
    have hB := mulSelf_lt_of_abs_lt h2
    rw [min_eq_right hA.le, min_eq_right hB.le]
  · have hA := mulSelf_lt_of_abs_lt h1
    have hB := mulSelf_le_of_abs_le (le_of_not_lt h2)
    rw [min_eq_right hA.le, min_eq_left hB]
  · have hA := mulSelf_le_of_abs_le (le_of_not_lt h1)
    have hB := mulSelf_lt_of_abs_lt h2
    rw [min_eq_left hA, min_eq_right hB.le]
  · have hA := mulSelf_le_of_abs_le (le_of_not_lt h1)
    have hB := mulSelf_le_of_abs_le (le_of_not_lt h2)
    rw [min_eq_left hA, min_eq_left hB]

theorem ratSq_minImageDisp_neg (per : Bool) (L d : ℚ) :
    ratSq (minImageDisp per L (-d)) = ratSq (minImageDisp per L d) := by
  cases per with
  | false =>
    unfold minImageDisp ratSq
    simp only [Bool.false_eq_true, if_false]
    ring
  | true =>
    rw [minImageSq_eq, minImageSq_eq]
    have e1 : ratSq (-d) = ratSq d := by unfold ratSq; ring
    have e2 : ratSq (-d - L) = ratSq (d + L) := by unfold ratSq; ring
    have e3 : ratSq (-d + L) = ratSq (d - L) := by unfold ratSq; ring
    rw [e1, e2, e3, min_right_comm]

theorem distSq_comm (box : BoxSpec) (p q : Point) : distSq box p q = distSq box q p := by
  have key : ∀ (per : Bool) (L a b : ℚ),
      ratSq (minImageDisp per L (a - b)) = ratSq (minImageDisp per L (b - a)) := by
    intro per L a b
    rw [show a - b = -(b - a) by ring, ratSq_minImageDisp_neg]
  unfold distSq
  rw [key box.px box.Lx, key box.py box.Ly, key box.pz box.Lz]

theorem withinBool_comm (box : BoxSpec) (rsq : ℚ) (p q : Point) :
    withinBool box rsq p q = withinBool box rsq q p := by
  unfold withinBool
  rw [distSq_comm]

theorem crossCount_perm_left (box : BoxSpec) (rsq : ℚ) {l1 l1' : List Point}
    (h : l1.Perm l1') (l2 : List Point) :
    crossCount box rsq l1 l2 = crossCount box rsq l1' l2 := by
  rw [crossCount_eq_sum, crossCount_eq_sum]
  exact (h.map fun p => l2.countP (withinBool box rsq p)).sum_eq

theorem crossCount_perm_right (box : BoxSpec) (rsq : ℚ) (l1 : List Point)
    {l2 l2' : List Point} (h : l2.Perm l2') :
    crossCount box rsq l1 l2 = crossCount box rsq l1 l2' := by
  rw [crossCount_eq_sum, crossCount_eq_sum]
  congr 1
  exact List.map_congr_left fun p _ => h.countP_eq _

theorem autoCount_perm (box : BoxSpec) (rsq : ℚ) {l l' : List Point}
    (h : l.Perm l') : autoCount box rsq l = autoCount box rsq l' := by
  induction h with
  | nil => rfl
  | cons x h ih => rw [autoCount_cons, autoCount_cons, ih, h.countP_eq]
  | swap x y l =>
    rw [autoCount_cons, autoCount_cons, autoCount_cons, autoCount_cons,
      List.countP_cons, List.countP_cons, withinBool_comm box rsq y x]
    omega
  | trans _ _ ih1 ih2 => rw [ih1, ih2]

theorem strictlyAscending_getD {l : List ℚ} (h : strictlyAscending l = true) :
    ∀ k, k + 1 < l.length → l.getD k 0 < l.getD (k + 1) 0 := by
  induction l with
  | nil => intro k hk; simp at hk
  | cons a t ih =>
    cases t with
    | nil => intro k hk; simp at hk
    | cons b t' =>
      rw [strictlyAscending, Bool.and_eq_true, decide_eq_true_eq] at h
      intro k hk
      cases k with
      | zero => simpa using h.1
      | succ k' =>
        simp only [List.getD_cons_succ]
        exact ih h.2 k' (by simpa using hk)

theorem allNonneg_getD {l : List ℚ} (h : allNonneg l = true) {k : ℕ}
    (hk : k < l.length) : 0 ≤ l.getD k 0 := by
  rw [allNonneg, List.all_eq_true] at h
  have hm : l.getD k 0 ∈ l := by
    rw [List.getD_eq_getElem l 0 hk]
    exact List.getElem_mem hk
  simpa using h _ hm

theorem getD_map {α β : Type} (f : α → β) (l : List α) (i : ℕ)
    (h : i < l.length) (d : α) (d' : β) :
    (l.map f).getD i d' = f (l.getD i d) := by
  rw [List.getD_eq_getElem _ _ (by simpa using h), List.getD_eq_getElem _ _ h,
    List.getElem_map]

theorem countedAutoPairs_mono (box : BoxSpec) {r1 r2 : ℚ} (h : r1 ≤ r2)
    (l : List Point) :
    (countedAutoPairs box r1 l).length ≤ (countedAutoPairs box r2 l).length := by
  unfold countedAutoPairs autoPairsIdx
  rw [← List.countP_eq_length_filter, ← List.countP_eq_length_filter]
  refine List.countP_mono_left fun ij _ hij => ?_
  simp only [Bool.and_eq_true, decide_eq_true_eq, withinBool] at hij ⊢
  exact ⟨hij.1, le_trans hij.2 h⟩

theorem crossCount_mono (box : BoxSpec) {r1 r2 : ℚ} (h : r1 ≤ r2)
    (l1 l2 : List Point) :
    crossCount box r1 l1 l2 ≤ crossCount box r2 l1 l2 := by
  unfold crossCount crossCountIdx
  rw [← List.countP_eq_length_filter, ← List.countP_eq_length_filter]
  refine List.countP_mono_left fun ij _ hij => ?_
  simp only [withinBool, decide_eq_true_eq] at hij ⊢
  exact le_trans hij h

theorem wrapCoord_add_period {L : ℚ} (hL : L ≠ 0) (x : ℚ) :
    wrapCoord L (x + L) = wrapCoord L x := by
  unfold wrapCoord
  have hdiv : (x + L) / L = x / L + 1 := by field_simp
  rw [hdiv, Int.floor_add_one]
  push_cast
  ring

theorem wrapCoord_idem {L : ℚ} (hL : L ≠ 0) (x : ℚ) :
    wrapCoord L (wrapCoord L x) = wrapCoord L x := by
  unfold wrapCoord
  have hdiv : (x - L * ((Int.floor (x / L) : ℤ) : ℚ)) / L =
      x / L - ((Int.floor (x / L) : ℤ) : ℚ) := by
    field_simp
  rw [hdiv, Int.floor_sub_int, sub_self, Int.cast_zero, mul_zero, sub_zero]

theorem Table.get_set_self (t : Table) (k : String) (c : Column) :
    Table.get (Table.set t k c) k = some c := by
  induction t with
  | nil => simp [Table.set, Table.get]
  | cons kc rest ih =>
    obtain ⟨k', c'⟩ := kc
    by_cases hk : k' = k
    · simp [Table.set, Table.get, hk]
    · simp [Table.set, Table.get, hk, ih]

theorem Table.get_set_ne (t : Table) {k k' : String} (c : Column) (h : k' ≠ k) :
    Table.get (Table.set t k' c) k = Table.get t k := by
  induction t with
  | nil => simp [Table.set, Table.get, h]
  | cons kc rest ih =>
    obtain ⟨k0, c0⟩ := kc
    by_cases hk : k0 = k'
    · simp [Table.set, Table.get, hk, h]
    · simp only [Table.set, hk, if_false, Table.get]
      by_cases hk2 : k0 = k
      · simp [hk2]
      · simp [hk2, ih]

theorem validateNpairs_eq_none {cfg : NpairsConfig} :
    validateNpairs cfg = none ↔
      strictlyAscending cfg.rbins = true ∧ allNonneg cfg.rbins = true ∧
      0 < cfg.cell_size ∧
      (cfg.data1 ++ if cfg.autocorr then [] else cfg.data2).all (inDomain cfg.box) = true := by
  unfold validateNpairs
  split_ifs with h1 h2 h3 h4 <;> simp_all

/-! ## Claim theorems -/

/-- Claim C1: the global cumulative-histogram 3D engine, run on the two points
`(0,0,0)` and `(0,0,5)` in a non-periodic `10×10×10` box with threshold list
`[3, 6, 10]`, returns exactly the cumulative counts `[0, 1, 1]`: the single
pair is counted at thresholds 6 and 10 but not at threshold 3. -/
theorem npairs_3d_concrete_scenario :
    npairs_3d_engine
      { data1 := [⟨0, 0, 0⟩, ⟨0, 0, 5⟩], data2 := [⟨0, 0, 0⟩, ⟨0, 0, 5⟩],
        autocorr := true, box := ⟨10, 10, 10, false, false, false⟩,
        cell_size := 10, rbins := [3, 6, 10] } = .ok [0, 1, 1] := by
  simp [npairs_3d_engine, validateNpairs, strictlyAscending, allNonneg, inDomain,
    npairsHist, autoCount, countedAutoPairs, autoPairsIdx, allPairs, withinBool,
    distSq, minImageDisp, normalizePoint, ratSq, origin, List.range_succ]
  norm_num

/-- Claim C2: on any point set and any squared threshold, the index pairs the
auto-correlation engine accumulates contain no self-pair, contain `(i, j)`
exactly when the skip rule admits it (`i < j`, i.e. the pair is skipped exactly
when the neighbor's original index is `≤` the home index) and the pair is
within the threshold, contain no duplicates, contain at most one of
`(i, j)`/`(j, i)`, and contain one of them whenever `i ≠ j` are in-range
indices of a within-threshold pair — so each distinct unordered pair is
counted exactly once and no point is paired with itself. -/
theorem npairs_auto_unordered_unique :
    ∀ (box : BoxSpec) (rsq : ℚ) (l : List Point),
      (∀ i, (i, i) ∉ countedAutoPairs box rsq l) ∧
      (∀ i j, (i, j) ∈ countedAutoPairs box rsq l ↔
        i < j ∧ j < l.length ∧ distSq box (l.getD i origin) (l.getD j origin) ≤ rsq) ∧
      (countedAutoPairs box rsq l).Nodup ∧
      (∀ i j, ¬((i, j) ∈ countedAutoPairs box rsq l ∧ (j, i) ∈ countedAutoPairs box rsq l)) ∧
      (∀ i j, i < l.length → j < l.length → i ≠ j →
        distSq box (l.getD i origin) (l.getD j origin) ≤ rsq →
        ((i, j) ∈ countedAutoPairs box rsq l ∨ (j, i) ∈ countedAutoPairs box rsq l)) ∧
      autoCount box rsq l = (countedAutoPairs box rsq l).length := by
  intro box rsq l
  have hmem : ∀ i j, (i, j) ∈ countedAutoPairs box rsq l ↔
      i < j ∧ j < l.length ∧ distSq box (l.getD i origin) (l.getD j origin) ≤ rsq := by
    intro i j
    unfold countedAutoPairs autoPairsIdx
    rw [List.mem_filter, mem_allPairs]
    simp only [Bool.and_eq_true, decide_eq_true_eq, withinBool]
    constructor
    · rintro ⟨⟨-, h2⟩, h3, h4⟩
      exact ⟨h3, h2, h4⟩
    · rintro ⟨h1, h2, h3⟩
      exact ⟨⟨lt_trans h1 h2, h2⟩, h1, h3⟩
  refine ⟨?_, hmem, (nodup_allPairs _ _).filter _, ?_, ?_, rfl⟩
  · intro i hi
    exact absurd ((hmem i i).mp hi).1 (lt_irrefl i)
  · rintro i j ⟨hij, hji⟩
    exact absurd (lt_trans ((hmem i j).mp hij).1 ((hmem j i).mp hji).1) (lt_irrefl i)
  · intro i j hi hj hne hd
    rcases lt_or_gt_of_ne hne with h | h
    · exact Or.inl ((hmem i j).mpr ⟨h, hj, hd⟩)
    · exact Or.inr ((hmem j i).mpr ⟨h, hi, distSq_comm box _ _ ▸ hd⟩)

/-- Witness for C2 at a concrete input: on the two-point list of the concrete
scenario with squared threshold 36, the pair `(0, 1)` is counted, `(1, 0)` and
the self-pairs are not. -/
theorem npairs_auto_unordered_unique_witness :
    (0, 1) ∈ countedAutoPairs ⟨10, 10, 10, false, false, false⟩ 36
        [⟨0, 0, 0⟩, ⟨0, 0, 5⟩] ∧
    (0, 0) ∉ countedAutoPairs ⟨10, 10, 10, false, false, false⟩ 36
        [⟨0, 0, 0⟩, ⟨0, 0, 5⟩] := by
  obtain ⟨hself, hmem, -, -, hcover, -⟩ :=
    npairs_auto_unordered_unique ⟨10, 10, 10, false, false, false⟩ 36
      [⟨0, 0, 0⟩, ⟨0, 0, 5⟩]
  have hd : distSq ⟨10, 10, 10, false, false, false⟩
      (([⟨0, 0, 0⟩, ⟨0, 0, 5⟩] : List Point).getD 0 origin)
      (([⟨0, 0, 0⟩, ⟨0, 0, 5⟩] : List Point).getD 1 origin) ≤ 36 := by
    simp [distSq, minImageDisp, ratSq]
    norm_num
  exact ⟨(hmem 0 1).mpr ⟨by decide, by decide, hd⟩, hself 0⟩

theorem validateJk_eq_none {cfg : JkConfig} :
    validateJk cfg = none ↔
      strictlyAscending cfg.rbins = true ∧ allNonneg cfg.rbins = true ∧
      0 < cfg.cell_size ∧ cfg.jtags1.length = cfg.data1.length ∧
      cfg.jtags2.length = cfg.data2.length ∧
      (cfg.data1 ++ if cfg.autocorr then [] else cfg.data2).all (inDomain cfg.box) = true := by
  unfold validateJk
  split_ifs with h1 h2 h3 h4 h5 h6 <;> simp_all

theorem rbins_ratSq_mono {rbins : List ℚ} (hasc : strictlyAscending rbins = true)
    (hnn : allNonneg rbins = true) {k : ℕ} (hk : k + 1 < rbins.length) :
    ratSq (rbins.getD k 0) ≤ ratSq (rbins.getD (k + 1) 0) :=
  mul_self_le_mul_self (allNonneg_getD hnn (by omega))
    (strictlyAscending_getD hasc k hk).le

theorem withinBool_mono {box : BoxSpec} {rsq1 rsq2 : ℚ} {p q : Point}
    (h : withinBool box rsq1 p q = true) (hle : rsq1 ≤ rsq2) :
    withinBool box rsq2 p q = true := by
  simp only [withinBool, decide_eq_true_eq] at h ⊢
  exact le_trans h hle

theorem crossCountIdx_mono (p q : ℕ → ℕ → Bool) (n m : ℕ)
    (h : ∀ i j, p i j = true → q i j = true) :
    crossCountIdx p n m ≤ crossCountIdx q n m := by
  unfold crossCountIdx
  rw [← List.countP_eq_length_filter, ← List.countP_eq_length_filter]
  exact List.countP_mono_left fun ij _ hij => h _ _ hij

theorem autoCountIdx_mono (p q : ℕ → ℕ → Bool) (n : ℕ)
    (h : ∀ i j, p i j = true → q i j = true) :
    autoCountIdx p n ≤ autoCountIdx q n := by
  unfold autoCountIdx autoPairsIdx
  rw [← List.countP_eq_length_filter, ← List.countP_eq_length_filter]
  refine List.countP_mono_left fun ij _ hij => ?_
  rw [Bool.and_eq_true] at hij ⊢
  exact ⟨hij.1, h _ _ hij.2⟩

theorem getD_range {n s : ℕ} (h : s < n) : (List.range n).getD s 0 = s := by
  rw [List.getD_eq_getElem _ _ (by simpa using h)]
  exact List.getElem_range _ _

/-- Claim C3: any global histogram a cumulative engine returns — the 3D
engine, the s-mu engine, or any jackknife row (full sample or subsample) — is
monotonically non-decreasing across the ascending threshold list: the count at
threshold `k+1` is at least the count at threshold `k`. -/
theorem npairs_hist_monotone :
    (∀ (cfg : NpairsConfig) (hist : List ℕ) (k : ℕ),
      npairs_3d_engine cfg = .ok hist → k + 1 < hist.length →
      hist.getD k 0 ≤ hist.getD (k + 1) 0) ∧
    (∀ (cfg : NpairsConfig) (hist : List ℕ) (k : ℕ),
      npairs_s_mu_engine cfg = .ok hist → k + 1 < hist.length →
      hist.getD k 0 ≤ hist.getD (k + 1) 0) ∧
    (∀ (cfg : JkConfig) (hist : List (List ℕ)) (s k : ℕ),
      npairs_jackknife_3d_engine cfg = .ok hist → s < hist.length →
      k + 1 < (hist.getD s []).length →
      (hist.getD s []).getD k 0 ≤ (hist.getD s []).getD (k + 1) 0) := by
  refine ⟨?_, ?_, ?_⟩
  · intro cfg hist k hok hk
    unfold npairs_3d_engine at hok
    cases hval : validateNpairs cfg with
    | some e => rw [hval] at hok; exact absurd hok (by simp)
    | none =>
      rw [hval] at hok
      obtain ⟨hasc, hnn, -, -⟩ := validateNpairs_eq_none.mp hval
      have hhist : npairsHist cfg.box cfg.autocorr cfg.rbins cfg.data1 cfg.data2 = hist :=
        by injection hok
      subst hhist
      unfold npairsHist at hk ⊢
      simp only [List.length_map] at hk
      have hk1 : k < cfg.rbins.length := by omega
      rw [getD_map _ _ _ hk1 0 0, getD_map _ _ _ hk 0 0]
      have hsq := rbins_ratSq_mono hasc hnn hk
      cases hauto : cfg.autocorr with
      | true => simpa [hauto] using countedAutoPairs_mono cfg.box hsq _
      | false => simpa [hauto] using crossCount_mono cfg.box hsq _ _
  · intro cfg hist k hok hk
    unfold npairs_s_mu_engine at hok
    cases hval : validateNpairs cfg with
    | some e => rw [hval] at hok; exact absurd hok (by simp)
    | none =>
      rw [hval] at hok
      obtain ⟨hasc, hnn, -, -⟩ := validateNpairs_eq_none.mp hval
      have hhist : smuHist cfg.box cfg.autocorr cfg.rbins cfg.data1 cfg.data2 = hist :=
        by injection hok
      subst hhist
      unfold smuHist at hk ⊢
      simp only [List.length_map] at hk
      have hk1 : k < cfg.rbins.length := by omega
      rw [getD_map _ _ _ hk1 0 0, getD_map _ _ _ hk 0 0]
      have hsq := rbins_ratSq_mono hasc hnn hk
      cases hauto : cfg.autocorr with
      | true =>
        simp only [hauto, if_true]
        refine autoCountIdx_mono _ _ _ fun i j hij => ?_
        simp only [decide_eq_true_eq] at hij ⊢
        exact le_trans hij hsq
      | false =>
        simp only [hauto, Bool.false_eq_true, if_false]
        refine crossCountIdx_mono _ _ _ _ fun i j hij => ?_
        simp only [decide_eq_true_eq] at hij ⊢
        exact le_trans hij hsq
  · intro cfg hist s k hok hs hk
    unfold npairs_jackknife_3d_engine at hok
    cases hval : validateJk cfg with
    | some e => rw [hval] at hok; exact absurd hok (by simp)
    | none =>
      rw [hval] at hok
      obtain ⟨hasc, hnn, -, -, -, -⟩ := validateJk_eq_none.mp hval
      have hhist : jkHist cfg.box cfg.autocorr cfg.rbins cfg.data1 cfg.data2
          cfg.jtags1 cfg.jtags2 cfg.nsub = hist := by injection hok
      subst hhist
      unfold jkHist at hs hk ⊢
      simp only [List.length_map, List.length_range] at hs
      rw [getD_map _ _ _ (by simpa using hs) 0 [], getD_range hs] at hk ⊢
      simp only [List.length_map] at hk
      have hk1 : k < cfg.rbins.length := by omega
      rw [getD_map _ _ _ hk1 0 0, getD_map _ _ _ hk 0 0]
      have hsq := rbins_ratSq_mono hasc hnn hk
      cases hauto : cfg.autocorr with
      | true =>
        simp only [hauto, if_true]
        refine autoCountIdx_mono _ _ _ fun i j hij => ?_
        rw [Bool.and_eq_true] at hij ⊢
        exact ⟨withinBool_mono hij.1 hsq, hij.2⟩
      | false =>
        simp only [hauto, Bool.false_eq_true, if_false]
        refine crossCountIdx_mono _ _ _ _ fun i j hij => ?_
        rw [Bool.and_eq_true] at hij ⊢
        exact ⟨withinBool_mono hij.1 hsq, hij.2⟩

/-- Witness for C3 at concrete inputs: a concrete 3D histogram, a concrete
s-mu histogram and a concrete jackknife row are each non-decreasing between
their first two thresholds. -/
theorem npairs_hist_monotone_witness :
    (npairs_3d_engine
      { data1 := [⟨0, 0, 0⟩, ⟨0, 0, 5⟩], data2 := [⟨0, 0, 0⟩, ⟨0, 0, 5⟩],
        autocorr := true, box := ⟨10, 10, 10, false, false, false⟩,
        cell_size := 10, rbins := [3, 6, 10] } = .ok [0, 1, 1] ∧
      ([0, 1, 1] : List ℕ).getD 0 0 ≤ ([0, 1, 1] : List ℕ).getD 1 0) ∧
    (npairs_s_mu_engine
      { data1 := [], data2 := [], autocorr := true,
        box := ⟨1, 1, 1, false, false, false⟩, cell_size := 1,
        rbins := [1, 2] } = .ok [0, 0] ∧
      ([0, 0] : List ℕ).getD 0 0 ≤ ([0, 0] : List ℕ).getD 1 0) ∧
    (npairs_jackknife_3d_engine
      { data1 := [], data2 := [], jtags1 := [], jtags2 := [], nsub := 1,
        autocorr := true, box := ⟨1, 1, 1, false, false, false⟩,
        cell_size := 1, rbins := [1, 2] } = .ok [[0, 0], [0, 0]] ∧
      (([[0, 0], [0, 0]] : List (List ℕ)).getD 0 []).getD 0 0 ≤
        (([[0, 0], [0, 0]] : List (List ℕ)).getD 0 []).getD 1 0) := by
  have hok1 : npairs_3d_engine
      { data1 := [⟨0, 0, 0⟩, ⟨0, 0, 5⟩], data2 := [⟨0, 0, 0⟩, ⟨0, 0, 5⟩],
        autocorr := true, box := ⟨10, 10, 10, false, false, false⟩,
        cell_size := 10, rbins := [3, 6, 10] } = .ok [0, 1, 1] := by
    simp [npairs_3d_engine, validateNpairs, strictlyAscending, allNonneg, inDomain,
      npairsHist, autoCount, countedAutoPairs, autoPairsIdx, allPairs, withinBool,
      distSq, minImageDisp, normalizePoint, ratSq, origin, List.range_succ]
    norm_num
  have hok2 : npairs_s_mu_engine
      { data1 := [], data2 := [], autocorr := true,
        box := ⟨1, 1, 1, false, false, false⟩, cell_size := 1,
        rbins := [1, 2] } = .ok [0, 0] := by rfl
  have hok3 : npairs_jackknife_3d_engine
      { data1 := [], data2 := [], jtags1 := [], jtags2 := [], nsub := 1,
        autocorr := true, box := ⟨1, 1, 1, false, false, false⟩,
        cell_size := 1, rbins := [1, 2] } = .ok [[0, 0], [0, 0]] := by rfl
  exact ⟨⟨hok1, npairs_hist_monotone.1 _ [0, 1, 1] 0 hok1 (by decide)⟩,
    ⟨hok2, npairs_hist_monotone.2.1 _ [0, 0] 0 hok2 (by decide)⟩,
    ⟨hok3, npairs_hist_monotone.2.2 _ [[0, 0], [0, 0]] 0 0 hok3 (by decide) (by decide)⟩⟩

/-- Translation of a point by one full period `L` along the z axis, with
wrap-around. -/
def translatePeriodZ (L : ℚ) (q : Point) : Point :=
  { q with z := wrapCoord L (q.z + L) }

theorem ratSq_nonneg (a : ℚ) : 0 ≤ ratSq a := mul_self_nonneg a

/-- Claim C4: on a periodic z axis of length `L > 0`, the metric squares the
minimum-image displacement (the least in magnitude among `d`, `d − L`,
`d + L`), and translating one point of a pair by a full period with
wrap-around changes neither the normalized point, nor the computed separation,
nor any cumulative pair-count histogram (whether the translated point sits in
`data1` or in `data2`). -/
theorem periodic_translation_invariance :
    ∀ box : BoxSpec, box.pz = true → 0 < box.Lz →
      (∀ d : ℚ, ratSq (minImageDisp box.pz box.Lz d) =
        min (min (ratSq d) (ratSq (d - box.Lz))) (ratSq (d + box.Lz))) ∧
      (∀ q : Point,
        normalizePoint box (translatePeriodZ box.Lz q) = normalizePoint box q) ∧
      (∀ p q : Point,
        distSq box (normalizePoint box p) (normalizePoint box (translatePeriodZ box.Lz q)) =
          distSq box (normalizePoint box p) (normalizePoint box q)) ∧
      (∀ (autocorr : Bool) (rbins : List ℚ) (pre post l2 : List Point) (q : Point),
        npairsHist box autocorr rbins (pre ++ translatePeriodZ box.Lz q :: post) l2 =
          npairsHist box autocorr rbins (pre ++ q :: post) l2) ∧
      (∀ (rbins : List ℚ) (l1 pre post : List Point) (q : Point),
        npairsHist box false rbins l1 (pre ++ translatePeriodZ box.Lz q :: post) =
          npairsHist box false rbins l1 (pre ++ q :: post)) := by
  intro box hpz hL
  have hLne : box.Lz ≠ 0 := ne_of_gt hL
  have hnorm : ∀ q : Point,
      normalizePoint box (translatePeriodZ box.Lz q) = normalizePoint box q := by
    intro q
    unfold normalizePoint translatePeriodZ
    simp only [hpz, if_true]
    rw [wrapCoord_idem hLne, wrapCoord_add_period hLne]
  refine ⟨?_, hnorm, ?_, ?_, ?_⟩
  · intro d
    rw [hpz]
    exact minImageSq_eq box.Lz d
  · intro p q
    rw [hnorm]
  · intro autocorr rbins pre post l2 q
    unfold npairsHist
    rw [List.map_append, List.map_append, List.map_cons, List.map_cons, hnorm]
  · intro rbins l1 pre post q
    unfold npairsHist
    rw [List.map_append, List.map_append, List.map_cons, List.map_cons, hnorm]

/-- Witness for C4 at a concrete input: with the box periodic along z with
length 10, the point `(0,0,5)` translated by one period normalizes back to
itself. -/
theorem periodic_translation_invariance_witness :
    normalizePoint ⟨10, 10, 10, false, false, true⟩
        (translatePeriodZ 10 ⟨0, 0, 5⟩) =
      normalizePoint ⟨10, 10, 10, false, false, true⟩ ⟨0, 0, 5⟩ :=
  (periodic_translation_invariance ⟨10, 10, 10, false, false, true⟩ rfl
    (by norm_num)).2.1 ⟨0, 0, 5⟩

/-- Claim C5: invalid configurations are rejected before any traversal with a
descriptive error naming the failing argument — non-monotonic thresholds yield
the `rbins` error, a non-positive cell size the `approx_cell_size` error, and
a label array whose length does not match its point array the `jtags1` error —
and no partial accumulator is ever produced: the engine returns a full
histogram exactly when validation passes. -/
theorem config_error_rejection :
    (∀ cfg : NpairsConfig, strictlyAscending cfg.rbins = false →
      npairs_3d_engine cfg = .error errRbinsMonotonic) ∧
    (∀ cfg : NpairsConfig, strictlyAscending cfg.rbins = true →
      allNonneg cfg.rbins = true → cfg.cell_size ≤ 0 →
      npairs_3d_engine cfg = .error errCellSize) ∧
    (∀ cfg : JkConfig, strictlyAscending cfg.rbins = true →
      allNonneg cfg.rbins = true → 0 < cfg.cell_size →
      cfg.jtags1.length ≠ cfg.data1.length →
      npairs_jackknife_3d_engine cfg = .error errJtags1) ∧
    (∀ (cfg : NpairsConfig) (e : String), validateNpairs cfg = some e →
      npairs_3d_engine cfg = .error e) ∧
    (∀ (cfg : NpairsConfig) (hist : List ℕ), npairs_3d_engine cfg = .ok hist →
      validateNpairs cfg = none) := by
  refine ⟨?_, ?_, ?_, ?_, ?_⟩
  · intro cfg h
    simp [npairs_3d_engine, validateNpairs, h]
  · intro cfg h1 h2 h3
    simp [npairs_3d_engine, validateNpairs, h1, h2, h3]
  · intro cfg h1 h2 h3 h4
    simp [npairs_jackknife_3d_engine, validateJk, h1, h2, not_le.mpr h3, h4]
  · intro cfg e h
    simp [npairs_3d_engine, h]
  · intro cfg hist h
    unfold npairs_3d_engine at h
    cases hval : validateNpairs cfg with
    | some e => rw [hval] at h; exact absurd h (by simp)
    | none => rfl

/-- Witness for C5 at concrete inputs: a decreasing threshold list, a zero
cell size, and a one-point sample with an empty label array each produce the
corresponding error. -/
theorem config_error_rejection_witness :
    npairs_3d_engine
      { data1 := [], data2 := [], autocorr := true,
        box := ⟨1, 1, 1, false, false, false⟩, cell_size := 1,
        rbins := [6, 3] } = .error errRbinsMonotonic ∧
    npairs_3d_engine
      { data1 := [], data2 := [], autocorr := true,
        box := ⟨1, 1, 1, false, false, false⟩, cell_size := 0,
        rbins := [3, 6] } = .error errCellSize ∧
    npairs_jackknife_3d_engine
      { data1 := [⟨0, 0, 0⟩], data2 := [],
        jtags1 := [], jtags2 := [], nsub := 1, autocorr := true,
        box := ⟨1, 1, 1, false, false, false⟩, cell_size := 1,
        rbins := [3, 6] } = .error errJtags1 :=
  ⟨config_error_rejection.1 _ (by decide),
    config_error_rejection.2.1 _ (by decide) (by decide) (by decide),
    config_error_rejection.2.2.1 _ (by decide) (by decide) (by decide) (by decide)⟩

theorem smu_mu_aux (a b : ℚ) (ha : 0 ≤ a) (hb : 0 ≤ b) :
    0 ≤ a + b ∧
    (a + b = 0 → (if a + b = 0 then (0 : ℚ) else b / (a + b)) = 0) ∧
    (if a + b = 0 then (0 : ℚ) else b / (a + b)) * (a + b) = b ∧
    0 ≤ (if a + b = 0 then (0 : ℚ) else b / (a + b)) ∧
    (if a + b = 0 then (0 : ℚ) else b / (a + b)) ≤ 1 := by
  split_ifs with h
  · have hb0 : b = 0 := by linarith
    exact ⟨by linarith, fun _ => rfl, by rw [h, hb0, mul_zero], le_refl 0, by norm_num⟩
  · have hpos : 0 < a + b := lt_of_le_of_ne (by linarith) (Ne.symm h)
    exact ⟨by linarith, fun hc => absurd hc h, div_mul_cancel₀ b (ne_of_gt hpos),
      div_nonneg hb (by linarith), (div_le_one hpos).mpr (by linarith)⟩

/-- Claim C6: the s-mu metric is total — for every pair of points it returns
the squared separation `s²` (always defined and nonnegative) and a `mu` value
satisfying `mu² * s² = (parallel separation)²` (i.e. `mu = |parallel| / s`)
with `0 ≤ mu² ≤ 1`; in the degenerate case `s = 0` it returns `mu = 0`
exactly instead of dividing by zero. -/
theorem smu_metric_total :
    ∀ (box : BoxSpec) (p q : Point),
      0 ≤ (smuKey box p q).1 ∧
      ((smuKey box p q).1 = 0 → (smuKey box p q).2 = 0) ∧
      (smuKey box p q).2 * (smuKey box p q).1 =
        ratSq (minImageDisp box.pz box.Lz (p.z - q.z)) ∧
      0 ≤ (smuKey box p q).2 ∧ (smuKey box p q).2 ≤ 1 := by
  intro box p q
  have h := smu_mu_aux
    (ratSq (minImageDisp box.px box.Lx (p.x - q.x)) +
      ratSq (minImageDisp box.py box.Ly (p.y - q.y)))
    (ratSq (minImageDisp box.pz box.Lz (p.z - q.z)))
    (add_nonneg (ratSq_nonneg _) (ratSq_nonneg _)) (ratSq_nonneg _)
  simpa [smuKey] using h

/-- Witness for C6 at a concrete input: for a coincident pair the computed
`s²` is 0 and the returned `mu` is exactly 0. -/
theorem smu_metric_total_witness :
    (smuKey ⟨1, 1, 1, false, false, false⟩ origin origin).2 = 0 := by
  have h0 : (smuKey ⟨1, 1, 1, false, false, false⟩ origin origin).1 = 0 := by
    simp [smuKey, minImageDisp, ratSq, origin]
  exact (smu_metric_total ⟨1, 1, 1, false, false, false⟩ origin origin).2.1 h0

theorem allPairs_right_nil (n : ℕ) : allPairs n 0 = [] := by
  rw [List.eq_nil_iff_forall_not_mem]
  rintro ⟨i, j⟩ h
  exact absurd (mem_allPairs.mp h).2 (Nat.not_lt_zero j)

theorem crossCountIdx_zero_left (pred : ℕ → ℕ → Bool) (m : ℕ) :
    crossCountIdx pred 0 m = 0 := rfl

theorem crossCountIdx_zero_right (pred : ℕ → ℕ → Bool) (n : ℕ) :
    crossCountIdx pred n 0 = 0 := by
  unfold crossCountIdx
  rw [allPairs_right_nil]
  rfl

theorem autoCountIdx_zero (pred : ℕ → ℕ → Bool) : autoCountIdx pred 0 = 0 := rfl

theorem map_const_zero {α : Type} (l : List α) :
    (l.map fun _ => (0 : ℕ)) = List.replicate l.length 0 := by
  induction l with
  | nil => rfl
  | cons x xs ih => simp [ih, List.replicate_succ]

theorem map_const_fun {α β : Type} (l : List α) (b : β) :
    (l.map fun _ => b) = List.replicate l.length b := by
  induction l with
  | nil => rfl
  | cons x xs ih => simp [ih, List.replicate_succ]

/-- Claim C7: for every modelled engine variant, an empty input point set
yields an all-zero (or empty) result with no error raised, and a zero-length
threshold list yields an empty accumulator with no error raised. -/
theorem engine_empty_inputs :
    (∀ cfg : NpairsConfig, validateNpairs cfg = none →
      ((cfg.autocorr = true → cfg.data1 = [] →
        npairs_3d_engine cfg = .ok (List.replicate cfg.rbins.length 0)) ∧
       (cfg.autocorr = false → cfg.data1 = [] ∨ cfg.data2 = [] →
        npairs_3d_engine cfg = .ok (List.replicate cfg.rbins.length 0)) ∧
       (cfg.rbins = [] → npairs_3d_engine cfg = .ok []))) ∧
    (∀ cfg : NpairsConfig, validateNpairs cfg = none →
      ((cfg.autocorr = true → cfg.data1 = [] →
        npairs_s_mu_engine cfg = .ok (List.replicate cfg.rbins.length 0)) ∧
       (cfg.autocorr = false → cfg.data1 = [] ∨ cfg.data2 = [] →
        npairs_s_mu_engine cfg = .ok (List.replicate cfg.rbins.length 0)) ∧
       (cfg.rbins = [] → npairs_s_mu_engine cfg = .ok []))) ∧
    (∀ cfg : NpairsConfig, validateNpairs cfg = none →
      ((cfg.data1 = [] → npairs_per_object_3d_engine cfg = .ok []) ∧
       (cfg.autocorr = false → cfg.data2 = [] → npairs_per_object_3d_engine cfg =
         .ok (List.replicate cfg.data1.length (List.replicate cfg.rbins.length 0))) ∧
       (cfg.rbins = [] → npairs_per_object_3d_engine cfg =
         .ok (List.replicate cfg.data1.length [])))) ∧
    (∀ cfg : JkConfig, validateJk cfg = none →
      ((cfg.autocorr = true → cfg.data1 = [] →
        npairs_jackknife_3d_engine cfg =
          .ok (List.replicate (cfg.nsub + 1) (List.replicate cfg.rbins.length 0))) ∧
       (cfg.autocorr = false → cfg.data1 = [] ∨ cfg.data2 = [] →
        npairs_jackknife_3d_engine cfg =
          .ok (List.replicate (cfg.nsub + 1) (List.replicate cfg.rbins.length 0))) ∧
       (cfg.rbins = [] → npairs_jackknife_3d_engine cfg =
         .ok (List.replicate (cfg.nsub + 1) [])))) := by
  refine ⟨?_, ?_, ?_, ?_⟩
  · intro cfg hval
    refine ⟨?_, ?_, ?_⟩
    · intro hauto hd1
      simp only [npairs_3d_engine, hval]
      unfold npairsHist
      rw [hauto, hd1]
      simp only [List.map_nil, if_true]
      rw [show (fun r => autoCount cfg.box (ratSq r) []) = fun _ : ℚ => 0 from rfl,
        map_const_zero]
    · intro hauto hd
      simp only [npairs_3d_engine, hval]
      unfold npairsHist
      rw [hauto]
      rcases hd with hd | hd <;> rw [hd] <;> simp only [List.map_nil, Bool.false_eq_true,
        if_false]
      · rw [show (fun r => crossCount cfg.box (ratSq r) []
            (cfg.data2.map (normalizePoint cfg.box))) = fun _ : ℚ => 0 from rfl,
          map_const_zero]
      · have hz : ∀ r : ℚ, crossCount cfg.box (ratSq r)
            (cfg.data1.map (normalizePoint cfg.box)) [] = 0 := fun r =>
          crossCountIdx_zero_right _ _
        rw [List.map_congr_left fun r _ => hz r, map_const_zero]
    · intro hr
      simp only [npairs_3d_engine, hval]
      unfold npairsHist
      rw [hr]
      rfl
  · intro cfg hval
    refine ⟨?_, ?_, ?_⟩
    · intro hauto hd1
      simp only [npairs_s_mu_engine, hval]
      unfold smuHist
      rw [hauto, hd1]
      simp only [List.map_nil, if_true]
      rw [show (fun r => autoCountIdx (fun i j =>
          decide ((smuKey cfg.box (([] : List Point).getD i origin)
            (([] : List Point).getD j origin)).1 ≤ ratSq r)) (List.length [])) =
          fun _ : ℚ => 0 from rfl, map_const_zero]
    · intro hauto hd
      simp only [npairs_s_mu_engine, hval]
      unfold smuHist
      rw [hauto]
      simp only [Bool.false_eq_true, if_false]
      rcases hd with hd | hd <;> rw [hd] <;> simp only [List.map_nil]
      · rw [show (fun r => crossCountIdx (fun i j =>
            decide ((smuKey cfg.box (([] : List Point).getD i origin)
              ((cfg.data2.map (normalizePoint cfg.box)).getD j origin)).1 ≤ ratSq r))
            (List.length ([] : List Point)) (cfg.data2.map (normalizePoint cfg.box)).length) =
          fun _ : ℚ => 0 from rfl, map_const_zero]
      · have hz : ∀ r : ℚ, crossCountIdx (fun i j =>
            decide ((smuKey cfg.box ((cfg.data1.map (normalizePoint cfg.box)).getD i origin)
              (([] : List Point).getD j origin)).1 ≤ ratSq r))
            (cfg.data1.map (normalizePoint cfg.box)).length
            (List.length ([] : List Point)) = 0 := fun r =>
          crossCountIdx_zero_right _ _
        rw [List.map_congr_left fun r _ => hz r, map_const_zero]
    · intro hr
      simp only [npairs_s_mu_engine, hval]
      unfold smuHist
      rw [hr]
      rfl
  · intro cfg hval
    refine ⟨?_, ?_, ?_⟩
    · intro hd1
      simp only [npairs_per_object_3d_engine, hval]
      unfold perObjectHist
      rw [hd1]
      rfl
    · intro hauto hd2
      simp only [npairs_per_object_3d_engine, hval, hauto, Bool.false_eq_true, if_false]
      unfold perObjectHist perObjectRow
      rw [hd2]
      simp only [List.map_nil, List.countP_nil, map_const_zero]
      rw [map_const_fun, List.length_map]
    · intro hr
      simp only [npairs_per_object_3d_engine, hval]
      unfold perObjectHist perObjectRow
      rw [hr]
      simp only [List.map_nil, List.map_map]
      rw [show ((fun p => ([] : List ℕ)) ∘ normalizePoint cfg.box :
          Point → List ℕ) = fun _ => [] from rfl]
      have := map_const_zero (α := Point)
      rw [show (cfg.data1.map fun _ => ([] : List ℕ)) =
        List.replicate cfg.data1.length [] from by
          induction cfg.data1 with
          | nil => rfl
          | cons x xs ih => simp [ih, List.replicate_succ]]
  · intro cfg hval
    refine ⟨?_, ?_, ?_⟩
    · intro hauto hd1
      simp only [npairs_jackknife_3d_engine, hval]
      unfold jkHist
      rw [hauto, hd1]
      simp only [List.map_nil, if_true]
      have hrow : ∀ s : ℕ, (cfg.rbins.map fun r => autoCountIdx
          (fun i j => withinBool cfg.box (ratSq r) (([] : List Point).getD i origin)
            (([] : List Point).getD j origin) && jkPairOk cfg.jtags1 cfg.jtags1 s i j)
          (List.length ([] : List Point))) = List.replicate cfg.rbins.length 0 := by
        intro s
        rw [show (fun r => autoCountIdx (fun i j => withinBool cfg.box (ratSq r)
            (([] : List Point).getD i origin) (([] : List Point).getD j origin) &&
            jkPairOk cfg.jtags1 cfg.jtags1 s i j) (List.length ([] : List Point))) =
          fun _ : ℚ => 0 from rfl, map_const_zero]
      rw [List.map_congr_left fun s _ => hrow s]
      have : (List.range (cfg.nsub + 1)).map (fun _ => List.replicate cfg.rbins.length 0) =
          List.replicate (List.range (cfg.nsub + 1)).length
            (List.replicate cfg.rbins.length 0) := by
        induction List.range (cfg.nsub + 1) with
        | nil => rfl
        | cons x xs ih => simp [ih, List.replicate_succ]
      rw [this, List.length_range]
    · intro hauto hd
      simp only [npairs_jackknife_3d_engine, hval]
      unfold jkHist
      simp only [hauto, Bool.false_eq_true, if_false]
      rcases hd with hd | hd <;> rw [hd] <;>
        simp only [List.map_nil, List.length_nil, crossCountIdx_zero_left,
          crossCountIdx_zero_right, map_const_zero]
      · rw [map_const_fun, List.length_range]
      · rw [map_const_fun, List.length_range]
    · intro hr
      simp only [npairs_jackknife_3d_engine, hval]
      unfold jkHist
      rw [hr]
      simp only [List.map_nil]
      have : (List.range (cfg.nsub + 1)).map (fun _ => ([] : List ℕ)) =
          List.replicate (List.range (cfg.nsub + 1)).length ([] : List ℕ) := by
        induction List.range (cfg.nsub + 1) with
        | nil => rfl
        | cons x xs ih => simp [ih, List.replicate_succ]
      rw [this, List.length_range]

/-- Witness for C7 at concrete inputs: on empty data the 3D engine returns
`[0, 0]`, the per-object engine with an empty `data2` returns a zero row per
home point, and the cross-correlation jackknife engine with an empty `data2`
returns all-zero rows — all without error. -/
theorem engine_empty_inputs_witness :
    npairs_3d_engine
      { data1 := [], data2 := [], autocorr := true,
        box := ⟨1, 1, 1, false, false, false⟩, cell_size := 1,
        rbins := [1, 2] } = .ok [0, 0] ∧
    npairs_per_object_3d_engine
      { data1 := [⟨0, 0, 0⟩], data2 := [], autocorr := false,
        box := ⟨1, 1, 1, false, false, false⟩, cell_size := 1,
        rbins := [1] } = .ok [[0]] ∧
    npairs_jackknife_3d_engine
      { data1 := [⟨0, 0, 0⟩], data2 := [], jtags1 := [1], jtags2 := [],
        nsub := 1, autocorr := false, box := ⟨1, 1, 1, false, false, false⟩,
        cell_size := 1, rbins := [1] } = .ok [[0], [0]] :=
  ⟨(engine_empty_inputs.1 _ (by decide)).1 rfl rfl,
    (engine_empty_inputs.2.2.1 _ (by decide)).2.1 rfl rfl,
    (engine_empty_inputs.2.2.2 _ (by decide)).2.1 rfl (Or.inr rfl)⟩

/-- Reordering of a point list by a list of source indices. -/
def reorderPoints (is : List ℕ) (l : List Point) : List Point :=
  is.map fun i => l.getD i origin

/-- The corresponding reordering of per-object output rows. -/
def reorderRows (is : List ℕ) (rows : List (List ℕ)) : List (List ℕ) :=
  is.map fun i => rows.getD i []

/-- Claim C8: permuting `data1` (and, in the auto-correlation case, the single
shared point set) leaves the global cumulative histogram unchanged, permuting
`data2` of a cross-correlation likewise, and reindexing `data1` reindexes the
per-object output of `npairs_per_object_3d` exactly correspondingly (the
per-object output is indexed by `data1`'s original pre-sort order). -/
theorem relabeling_invariance :
    (∀ (box : BoxSpec) (autocorr : Bool) (rbins : List ℚ) (l1 l1' l2 : List Point),
      l1.Perm l1' →
      npairsHist box autocorr rbins l1 l2 = npairsHist box autocorr rbins l1' l2) ∧
    (∀ (box : BoxSpec) (rbins : List ℚ) (l1 l2 l2' : List Point),
      l2.Perm l2' →
      npairsHist box false rbins l1 l2 = npairsHist box false rbins l1 l2') ∧
    (∀ (box : BoxSpec) (rbins : List ℚ) (l1 l2 : List Point) (is : List ℕ),
      (∀ i ∈ is, i < l1.length) →
      perObjectHist box rbins (reorderPoints is l1) l2 =
        reorderRows is (perObjectHist box rbins l1 l2)) := by
  refine ⟨?_, ?_, ?_⟩
  · intro box autocorr rbins l1 l1' l2 h
    have hperm : (l1.map (normalizePoint box)).Perm (l1'.map (normalizePoint box)) :=
      h.map _
    unfold npairsHist
    refine List.map_congr_left fun r _ => ?_
    cases autocorr with
    | true => simpa using autoCount_perm box (ratSq r) hperm
    | false => simpa using crossCount_perm_left box (ratSq r) hperm _
  · intro box rbins l1 l2 l2' h
    have hperm : (l2.map (normalizePoint box)).Perm (l2'.map (normalizePoint box)) :=
      h.map _
    unfold npairsHist
    refine List.map_congr_left fun r _ => ?_
    simpa using crossCount_perm_right box (ratSq r) _ hperm
  · intro box rbins l1 l2 is his
    unfold perObjectHist reorderPoints reorderRows
    rw [List.map_map, List.map_map]
    refine List.map_congr_left fun i hi => ?_
    have h1 : i < l1.length := his i hi
    have h2 : i < ((l1.map (normalizePoint box)).map fun p =>
        perObjectRow box rbins p (l2.map (normalizePoint box))).length := by
      simpa using h1
    simp only [Function.comp_def]
    rw [List.getD_eq_getElem _ _ h2, List.getElem_map, List.getElem_map,
      ← List.getD_eq_getElem l1 origin h1]

/-- Witness for C8 at a concrete input: swapping the two points of the
concrete scenario leaves the auto-correlation histogram unchanged. -/
theorem relabeling_invariance_witness :
    npairsHist ⟨10, 10, 10, false, false, false⟩ true [6]
        [⟨0, 0, 0⟩, ⟨0, 0, 5⟩] [] =
      npairsHist ⟨10, 10, 10, false, false, false⟩ true [6]
        [⟨0, 0, 5⟩, ⟨0, 0, 0⟩] [] :=
  relabeling_invariance.1 ⟨10, 10, 10, false, false, false⟩ true [6]
    [⟨0, 0, 0⟩, ⟨0, 0, 5⟩] [⟨0, 0, 5⟩, ⟨0, 0, 0⟩] []
    (List.Perm.swap (⟨0, 0, 5⟩ : Point) (⟨0, 0, 0⟩ : Point) [])

theorem copyHaloprops_first_missing (keys : List String) (ht : Table) :
    ∀ (acc : Table) (k : String), firstMissingKey keys ht = some k →
      copyHaloprops keys ht acc = .error (unavailable_haloprop_msg k) := by
  induction keys with
  | nil => intro acc k h; simp [firstMissingKey] at h
  | cons k0 rest ih =>
    intro acc k h
    cases hget : Table.get ht k0 with
    | none =>
      have hk : k = k0 := by
        simp [firstMissingKey, List.find?_cons, hget] at h
        exact h.symm
      subst hk
      unfold copyHaloprops
      rw [hget]
    | some c =>
      simp only [firstMissingKey, List.find?_cons, hget, Option.isNone_some,
        Bool.false_eq_true, if_false] at h
      unfold copyHaloprops
      rw [hget]
      exact ih _ k h

theorem copyHaloprops_complete (keys : List String) (ht : Table) :
    ∀ acc : Table, firstMissingKey keys ht = none →
      ∃ t, copyHaloprops keys ht acc = .ok t := by
  induction keys with
  | nil => intro acc _; exact ⟨acc, rfl⟩
  | cons k0 rest ih =>
    intro acc h
    cases hget : Table.get ht k0 with
    | none => simp [firstMissingKey, List.find?_cons, hget] at h
    | some c =>
      simp only [firstMissingKey, List.find?_cons, hget, Option.isNone_some,
        Bool.false_eq_true, if_false] at h
      unfold copyHaloprops
      rw [hget]
      exact ih _ h

/-- Claim C9 (counterexample): with `additional_haloprops = ["halo_a",
"halo_b"]` and an empty halo catalog, both listed keys are absent from the
input `halo_table`, yet `preprocess_halo_catalog` raises a single
`HalotoolsError` whose message names only `halo_a` — so the claim's promise
that the raised message names the (absent, listed) key `halo_b` is false. -/
theorem preprocess_missing_key_counterexample :
    "halo_b" ∈ ["halo_a", "halo_b"] ∧
    Table.get ([] : Table) "halo_b" = none ∧
    preprocess_halo_catalog ⟨none, []⟩ ["halo_a", "halo_b"] ([] : Table) =
      .error (unavailable_haloprop_msg "halo_a") ∧
    unavailable_haloprop_msg "halo_a" ≠ unavailable_haloprop_msg "halo_b" :=
  ⟨by decide, rfl, by rfl, by decide⟩

/-- Claim C9 (amended): after the host-halo keys are appended and the
`new_haloprop_func_dict` columns are added, `preprocess_halo_catalog` raises
`HalotoolsError` whose message names the first key of `additional_haloprops`
still absent from the halo table (in particular, when exactly one listed key
is missing the message names it, and construction fails rather than
proceeding whenever any listed key is missing); when no listed key is
missing, the full column set is built. -/
theorem preprocess_missing_key_behavior :
    ∀ (model : FactoryModel) (addprops : List String) (halo_table : Table),
      (∀ k : String,
        firstMissingKey (augmentedState model addprops halo_table).2
            (augmentedState model addprops halo_table).1 = some k →
        preprocess_halo_catalog model addprops halo_table =
          .error (unavailable_haloprop_msg k)) ∧
      (firstMissingKey (augmentedState model addprops halo_table).2
          (augmentedState model addprops halo_table).1 = none →
        ∃ t, preprocess_halo_catalog model addprops halo_table =
          .ok (t, (augmentedState model addprops halo_table).2)) := by
  intro model addprops halo_table
  rcases haug : augmentedState model addprops halo_table with ⟨ht, a2⟩
  constructor
  · intro k h
    unfold preprocess_halo_catalog
    rw [haug]
    have := copyHaloprops_first_missing a2 ht [] k h
    simp only [this]
  · intro h
    obtain ⟨t, hcopy⟩ := copyHaloprops_complete a2 ht [] h
    refine ⟨t, ?_⟩
    unfold preprocess_halo_catalog
    rw [haug]
    simp only [hcopy]

/-- Witness for the amended C9 at a concrete input: a single listed key that
is absent from the catalog makes preprocessing fail with the message naming
that key. -/
theorem preprocess_missing_key_behavior_witness :
    preprocess_halo_catalog ⟨none, []⟩ ["halo_a"] ([] : Table) =
      .error (unavailable_haloprop_msg "halo_a") :=
  (preprocess_missing_key_behavior ⟨none, []⟩ ["halo_a"] []).1 "halo_a" (by rfl)

theorem get_foldl_set_not_mem (ks : List String) (f : String → Column) :
    ∀ (t : Table) (k : String), k ∉ ks →
      Table.get (ks.foldl (fun t k' => Table.set t k' (f k')) t) k = Table.get t k := by
  induction ks with
  | nil => intro t k _; rfl
  | cons k0 rest ih =>
    intro t k h
    simp only [List.foldl_cons]
    have hne : k0 ≠ k := fun he => h (he ▸ List.mem_cons_self k0 rest)
    rw [ih _ k fun hm => h (List.mem_cons_of_mem _ hm), Table.get_set_ne _ _ hne]

theorem phaseSpaceLoop_props (hostPfx : String) (keys : List String) :
    ∀ (gt : Table) (pl : List String) (gt' : Table) (pl' : List String),
      phaseSpaceLoop hostPfx keys gt pl = .ok (gt', pl') → pl' = pl ++ keys := by
  induction keys with
  | nil =>
    intro gt pl gt' pl' h
    unfold phaseSpaceLoop at h
    injection h with h
    injection h with h1 h2
    simp [h2.symm]
  | cons k rest ih =>
    intro gt pl gt' pl' h
    unfold phaseSpaceLoop at h
    cases hget : Table.get gt (hostPfx ++ k) with
    | none => rw [hget] at h; exact absurd h (by simp)
    | some c =>
      rw [hget] at h
      have := ih _ _ _ _ h
      rw [this]
      simp

theorem galid_ne_gal_type (f : String) : f ++ "_gal_type" ≠ "galid" := by
  intro h
  have hlen := congrArg String.length h
  rw [String.length_append] at hlen
  have h9 : ("_gal_type" : String).length = 9 := rfl
  have h5 : ("galid" : String).length = 5 := rfl
  omega

theorem galTypeLoop_props (md : List (String × Option (Table → Option Column))) :
    ∀ (gt : Table) (pl : List String) (gt' : Table) (pl' : List String),
      galTypeLoop md gt pl = .ok (gt', pl') →
      (∀ k, k ∈ pl → k ∈ pl') ∧ Table.get gt' "galid" = Table.get gt "galid" := by
  induction md with
  | nil =>
    intro gt pl gt' pl' h
    unfold galTypeLoop at h
    injection h with h
    injection h with h1 h2
    subst h1
    subst h2
    exact ⟨fun k hk => hk, rfl⟩
  | cons entry rest ih =>
    obtain ⟨feature, fopt⟩ := entry
    intro gt pl gt' pl' h
    cases fopt with
    | none =>
      unfold galTypeLoop at h
      exact ih _ _ _ _ h
    | some f =>
      unfold galTypeLoop at h
      cases hf : f gt with
      | none => rw [hf] at h; exact absurd h (by simp)
      | some col =>
        rw [hf] at h
        obtain ⟨hsub, hgal⟩ := ih _ _ _ _ h
        refine ⟨fun k hk => hsub k (List.mem_append_left _ hk), ?_⟩
        rw [hgal, Table.get_set_ne _ _ (galid_ne_gal_type feature)]

/-- Claim C10: `_allocate_memory` leaves every column named in
`_precomputed_galprop_list` unchanged, and any column it does change is a
model dtype key that is not in that list; moreover `precompute_galprops`
records as precomputed every inherited halo property, the phase-space keys
`x, y, z, vx, vy, vz` and `galid`, and sets `galid` to the sequence
`0 .. N-1` of row positions. -/
theorem allocate_memory_frame :
    (∀ (gt : Table) (plist dtypeNames : List String) (k : String), k ∈ plist →
      Table.get (allocate_memory gt plist dtypeNames) k = Table.get gt k) ∧
    (∀ (gt : Table) (plist dtypeNames : List String) (k : String),
      Table.get (allocate_memory gt plist dtypeNames) k ≠ Table.get gt k →
      k ∈ dtypeNames ∧ k ∉ plist) ∧
    (∀ (model : FactoryModel) (hostPfx : String) (addprops : List String)
        (halo_table gt : Table) (plist : List String),
      precompute_galprops model hostPfx addprops halo_table = .ok (gt, plist) →
      (∀ k ∈ addprops, k ∈ plist) ∧ (∀ k ∈ phase_space_keys, k ∈ plist) ∧
      "galid" ∈ plist ∧ (∃ n, Table.get gt "galid" = some (galidColumn n))) := by
  refine ⟨?_, ?_, ?_⟩
  · intro gt plist names k hk
    unfold allocate_memory
    apply get_foldl_set_not_mem
    intro hmem
    rw [List.mem_filter] at hmem
    exact (by simpa using hmem.2 : k ∉ plist) hk
  · intro gt plist names k hne
    by_contra hcon
    apply hne
    unfold allocate_memory
    apply get_foldl_set_not_mem
    intro hmem
    rw [List.mem_filter] at hmem
    exact hcon ⟨hmem.1, by simpa using hmem.2⟩
  · intro model hostPfx addprops halo_table gt plist h
    unfold precompute_galprops at h
    cases hp : phaseSpaceLoop hostPfx phase_space_keys
        (addprops.foldl (fun t k => Table.set t k ((Table.get halo_table k).getD [])) [])
        addprops with
    | error e => rw [hp] at h; exact absurd h (by simp)
    | ok res =>
      obtain ⟨gt1, pl1⟩ := res
      rw [hp] at h
      have hpl1 : pl1 = addprops ++ phase_space_keys :=
        phaseSpaceLoop_props _ _ _ _ _ _ hp
      obtain ⟨hsub, hgal⟩ := galTypeLoop_props _ _ _ _ _ h
      refine ⟨?_, ?_, ?_, ⟨Table.numRows gt1, ?_⟩⟩
      · intro k hk
        exact hsub k (List.mem_append_left _ (hpl1 ▸ List.mem_append_left _ hk))
      · intro k hk
        exact hsub k (List.mem_append_left _ (hpl1 ▸ List.mem_append_right _ hk))
      · exact hsub "galid" (List.mem_append_right _ (List.mem_singleton.mpr rfl))
      · rw [hgal, Table.get_set_self]

/-- Witness for C10 at concrete inputs: allocating over dtype names `["b"]`
with `"halo_a"` precomputed leaves the `"halo_a"` column unchanged, the column
`"b"` it creates is indeed a non-precomputed dtype key, and a concrete
`precompute_galprops` run records `galid` as precomputed. -/
theorem allocate_memory_frame_witness :
    Table.get (allocate_memory [("halo_a", [1, 2])] ["halo_a"] ["b"]) "halo_a" =
      Table.get ([("halo_a", [1, 2])] : Table) "halo_a" ∧
    ("b" ∈ ["b"] ∧ "b" ∉ ["halo_a"]) ∧
    "galid" ∈ ["x", "y", "z", "vx", "vy", "vz",
      "x", "y", "z", "vx", "vy", "vz", "galid"] := by
  refine ⟨allocate_memory_frame.1 _ _ _ _ (by decide), ?_, ?_⟩
  · exact allocate_memory_frame.2.1 ([] : Table) ["halo_a"] ["b"] "b" (by decide)
  · have h := (allocate_memory_frame.2.2 ⟨none, []⟩ ""
      ["x", "y", "z", "vx", "vy", "vz"]
      [("x", [0]), ("y", [0]), ("z", [0]), ("vx", [0]), ("vy", [0]), ("vz", [0])]
      [("x", [0]), ("y", [0]), ("z", [0]), ("vx", [0]), ("vy", [0]), ("vz", [0]),
        ("galid", [0])]
      ["x", "y", "z", "vx", "vy", "vz", "x", "y", "z", "vx", "vy", "vz", "galid"]
      (by rfl)).2.2.1
    exact h

end Halotools
